import Mathlib

/-!
Shallow embedding of the `hash` Go package (github.com/bytemare/hash): an
algorithm registry mapping identifiers to constructors and metadata, a
`Fixed` hasher for fixed-output-length functions (SHA-2, SHA-3) with
HMAC/HKDF operations, and an `ExtendableHash` hasher for extendable-output
functions (SHAKE, BLAKE2X).

Identifiers (`Hash`, a Go `uint8`) are modelled as `Nat`. Byte strings are
`List Nat`. The cryptographic primitives themselves (compression functions,
HMAC/HKDF internals, XOF streams) are external library collaborators; they
are modelled as a parameter structure `Prim` carrying the library functions
and their documented length contracts. Go panics are modelled as
`Except GoPanic`.
-/

namespace HashSpec

/-- Panic values raised by the package or the Go runtime. `smallOutputSize`
and `hmacKeySize` model the package's own `errSmallOutputSize` and
`errHmacKeySize` panics; `nilFunctionCall` and `indexOutOfRange` model the
Go runtime panics from calling a nil function value and from indexing an
array out of bounds. -/
inductive GoPanic where
  | smallOutputSize
  | hmacKeySize
  | nilFunctionCall
  | indexOutOfRange
deriving DecidableEq, Repr

/-- Which registered constructor backs an identifier: `newFixed` or `newXOF`
(hash.go `init`). A `none` entry models the nil zero value of the `hashes`
array for identifiers that were never registered. -/
inductive CtorKind where
  | fixedCtor
  | xofCtor
deriving DecidableEq, Repr

/-- hash.go: `maxFixed = 20`, the boundary between the fixed-output and the
extendable-output identifier ranges. -/
def maxFixed : Nat := 20

/-- hash.go: `maxID Hash = maxFixed + 5`. -/
def maxID : Nat := maxFixed + 5

/-- hash.go: `SHA256 = Hash(crypto.SHA256)`; `crypto.SHA256` is 5. -/
def SHA256 : Nat := 5

/-- hash.go: `SHA384 = Hash(crypto.SHA384)`; `crypto.SHA384` is 6. -/
def SHA384 : Nat := 6

/-- hash.go: `SHA512 = Hash(crypto.SHA512)`; `crypto.SHA512` is 7. -/
def SHA512 : Nat := 7

/-- hash.go: `SHA3_256 = Hash(crypto.SHA3_256)`; `crypto.SHA3_256` is 11. -/
def SHA3_256 : Nat := 11

/-- hash.go: `SHA3_384 = Hash(crypto.SHA3_384)`; `crypto.SHA3_384` is 12. -/
def SHA3_384 : Nat := 12

/-- hash.go: `SHA3_512 = Hash(crypto.SHA3_512)`; `crypto.SHA3_512` is 13. -/
def SHA3_512 : Nat := 13

/-- hash.go: `SHAKE128 Hash = maxFixed + 1`. -/
def SHAKE128 : Nat := maxFixed + 1

/-- hash.go: `SHAKE256 Hash = maxFixed + 2`. -/
def SHAKE256 : Nat := maxFixed + 2

/-- hash.go: `BLAKE2XB Hash = maxFixed + 3`. -/
def BLAKE2XB : Nat := maxFixed + 3

/-- hash.go: `BLAKE2XS Hash = maxFixed + 4`. -/
def BLAKE2XS : Nat := maxFixed + 4

/-- hash.go: `FixedOutputLength Type = "fixed"`. -/
def FixedOutputLength : String := "fixed"

/-- hash.go: `ExtendableOutputFunction Type = "extendable-output-function"`. -/
def ExtendableOutputFunction : String := "extendable-output-function"

/-- The process-wide registration tables of hash.go:
`registeredHashes`, `hashes`, `names`, `blockSizes`, `outputSizes`,
`securityLevels`, each a `[maxID]`-array indexed by identifier. The arrays
are modelled as total functions on `Nat`; entries never written keep the Go
zero values (`false`, nil constructor, `""`, `0`). -/
structure Registry where
  registered : Nat → Bool
  ctors : Nat → Option CtorKind
  names : Nat → String
  blockSizes : Nat → Nat
  outputSizes : Nat → Nat
  securityLevels : Nat → Nat

/-- The zero-valued tables before `init` runs. -/
def Registry.empty : Registry where
  registered := fun _ => false
  ctors := fun _ => none
  names := fun _ => ""
  blockSizes := fun _ => 0
  outputSizes := fun _ => 0
  securityLevels := fun _ => 0

/-- hash.go `Hash.register`: writes one entry into each table at index `h`. -/
def Registry.register (r : Registry) (h : Nat) (ctor : CtorKind) (name : String)
    (block output security : Nat) : Registry where
  registered := fun x => if x = h then true else r.registered x
  ctors := fun x => if x = h then some ctor else r.ctors x
  names := fun x => if x = h then name else r.names x
  blockSizes := fun x => if x = h then block else r.blockSizes x
  outputSizes := fun x => if x = h then output else r.outputSizes x
  securityLevels := fun x => if x = h then security else r.securityLevels x

/-- fixed.go block-size constants: `blockSHA3256 = 1088/8`, `blockSHA3384 =
832/8`, `blockSHA3512 = 576/8`; part_002: `blockSHAKE128 = 1344/8`,
`blockSHAKE256 = 1088/8`. Go stdlib: `sha256.BlockSize = 64`,
`sha512.BlockSize = 128`; digest sizes 32/48/64. -/
def initRegistry : Registry :=
  ((((((((((Registry.empty.register SHA256 .fixedCtor "SHA-256" 64 32 128).register
    SHA384 .fixedCtor "SHA-384" 128 48 192).register
    SHA512 .fixedCtor "SHA-512" 128 64 256).register
    SHA3_256 .fixedCtor "SHA3-256" (1088 / 8) 32 128).register
    SHA3_384 .fixedCtor "SHA3-384" (832 / 8) 48 192).register
    SHA3_512 .fixedCtor "SHA3-512" (576 / 8) 64 256).register
    SHAKE128 .xofCtor "SHAKE128" (1344 / 8) 32 128).register
    SHAKE256 .xofCtor "SHAKE256" (1088 / 8) 32 224).register
    BLAKE2XB .xofCtor "BLAKE2XB" 0 32 128).register
    BLAKE2XS .xofCtor "BLAKE2XS" 0 32 128)

/-- hash.go `Hash.Available`: `h < maxID && registeredHashes[h]`. -/
def Hash.Available (h : Nat) : Bool :=
  decide (h < maxID) && initRegistry.registered h

/-- hash.go `Hash.Size`: `outputSizes[h]`. (Go would panic on the array
index for `h ≥ maxID`; the model is total and returns the zero value there,
which only matters on paths the package itself never takes.) -/
def Hash.Size (h : Nat) : Nat := initRegistry.outputSizes h

/-- hash.go `Hash.BlockSize`: `blockSizes[h]`. -/
def Hash.BlockSize (h : Nat) : Nat := initRegistry.blockSizes h

/-- hash.go `Hash.SecurityLevel`: `securityLevels[h]`. -/
def Hash.SecurityLevel (h : Nat) : Nat := initRegistry.securityLevels h

/-- hash.go `Hash.String`: `names[h]`. -/
def Hash.Name (h : Nat) : String := initRegistry.names h

/-- hash.go `Hash.Type`:
a switch on the identifier range intersected with availability, returning
`""` when neither case matches. (`Type` is a Lean keyword, hence `TypeOf`.) -/
def Hash.TypeOf (h : Nat) : String :=
  if SHA256 ≤ h ∧ h < maxFixed ∧ Hash.Available h = true then FixedOutputLength
  else if maxFixed < h ∧ h < maxID ∧ Hash.Available h = true then ExtendableOutputFunction
  else ""

/-- The external cryptography library (Go stdlib `hash.Hash` instances,
`crypto/hmac`, `x/crypto/hkdf`, the SHAKE/BLAKE2X XOF readers), declared out
of scope by the design and consumed via well-known calls. `digest i d` is
the digest the algorithm `i` state reports after absorbing the bytes `d`
(`hash.Hash.Sum` appends it without changing state, per its interface
contract); `hmacF i key msg` is `hmac.New(f, key); Write(msg); Sum(nil)`;
`okm`/`okmExpand` give byte `pos` of the HKDF output-keying-material stream;
`prk` is `hkdf.Extract`; `xofStream i absorbed pos` is byte `pos` of the XOF
output stream after absorbing `absorbed`. The two length fields are the
library's documented contracts: a digest and an HMAC tag are exactly
`Size` bytes. -/
structure Prim where
  digest : Nat → List Nat → List Nat
  hmacF : Nat → List Nat → List Nat → List Nat
  okm : Nat → List Nat → List Nat → List Nat → Nat → Nat
  okmExpand : Nat → List Nat → List Nat → Nat → Nat
  prk : Nat → List Nat → List Nat → List Nat
  xofStream : Nat → List Nat → Nat → Nat
  digest_len : ∀ i d, (digest i d).length = Hash.Size i
  hmacF_len : ∀ i k m, (hmacF i k m).length = Hash.Size i

/-- fixed.go `Fixed`: wraps one live `hash.Hash` state plus its identifier
(the constructor field `f` is recovered from `id` through `Prim`). The live
state of a Merkle–Damgård/sponge digest is determined by the bytes written
since the last reset, recorded in `data`. -/
structure Fixed where
  id : Nat
  data : List Nat
deriving DecidableEq, Repr

/-- part_002 `ExtendableHash`: wraps an XOF state (`absorbed` input and the
stream read position `pos`) plus its identifier. -/
structure ExtendableHash where
  id : Nat
  absorbed : List Nat
  pos : Nat
deriving DecidableEq, Repr

/-- The two concrete variants behind the `Hasher` interface. -/
inductive Hasher where
  | fixedH : Fixed → Hasher
  | xofH : ExtendableHash → Hasher
deriving DecidableEq, Repr

/-- hash.go `Hasher.Algorithm` as implemented by both variants: return the
stored identifier. -/
def Hasher.Algorithm : Hasher → Nat
  | .fixedH f => f.id
  | .xofH x => x.id

/-- fixed.go `Fixed.Algorithm`. -/
def Fixed.Algorithm (h : Fixed) : Nat := h.id

/-- fixed.go `Fixed.Size`: `h.id.Size()`. -/
def Fixed.Size (h : Fixed) : Nat := Hash.Size h.id

/-- fixed.go `Fixed.Write`: delegates to `h.hash.Write`, which absorbs the
input and never fails; returns `(len(input), nil)`. -/
def Fixed.Write (h : Fixed) (input : List Nat) : Nat × Fixed :=
  (input.length, { h with data := h.data ++ input })

/-- fixed.go `Fixed.Sum`: `h.hash.Sum(pfx)` appends the current digest to
`pfx` and, per the `hash.Hash` contract, does not change the underlying
state; the unchanged hasher is returned alongside to make that explicit. -/
def Fixed.Sum (P : Prim) (h : Fixed) (pfx : List Nat) : List Nat × Fixed :=
  (pfx ++ P.digest h.id h.data, h)

/-- fixed.go `Fixed.Read`: ignores its size argument and returns
`h.Sum(nil)`; does not change the underlying hash state. -/
def Fixed.Read (P : Prim) (h : Fixed) (_size : Nat) : List Nat × Fixed :=
  Fixed.Sum P h []

/-- fixed.go `Fixed.Reset`: resets the hash to its initial state. -/
def Fixed.Reset (h : Fixed) : Fixed := { h with data := [] }

/-- fixed.go `Fixed.Hash`: resets the state, writes every input chunk in
order, and returns `Sum(nil)`; the size hint is ignored. -/
def Fixed.Hash (P : Prim) (h : Fixed) (_size : Nat) (input : List (List Nat)) :
    List Nat × Fixed :=
  Fixed.Sum P (input.foldl (fun s i => (Fixed.Write s i).2) (Fixed.Reset h)) []

/-- fixed.go `Fixed.Hmac`: panics with `errHmacKeySize` when the key is
longer than the digest size, otherwise delegates to `crypto/hmac`. -/
def Fixed.Hmac (P : Prim) (h : Fixed) (message key : List Nat) :
    Except GoPanic (List Nat) :=
  if Hash.Size h.id < key.length then .error .hmacKeySize
  else .ok (P.hmacF h.id key message)

/-- fixed.go `Fixed.HKDF`: a zero requested length becomes the digest size;
`dst := make([]byte, length)` is zero-initialised; `io.ReadFull(kdf, dst)`
fills it from the `hkdf.New` reader and its error is discarded. The
`x/crypto/hkdf` reader checks up front whether the request exceeds the
remaining `255 * Size` bytes of expansion capacity and, if so, returns
`(0, err)` without producing any bytes, so an over-limit request leaves
`dst` entirely zero. -/
def Fixed.HKDF (P : Prim) (h : Fixed) (secret salt info : List Nat)
    (length : Nat) : List Nat :=
  let n := if length = 0 then Hash.Size h.id else length
  if n ≤ 255 * Hash.Size h.id then
    (List.range n).map (P.okm h.id secret salt info)
  else
    List.replicate n 0

/-- fixed.go `Fixed.HKDFExtract`: delegates to `hkdf.Extract`. -/
def Fixed.HKDFExtract (P : Prim) (h : Fixed) (secret salt : List Nat) :
    List Nat :=
  P.prk h.id secret salt

/-- fixed.go `Fixed.HKDFExpand`: same zero-length convention as `HKDF`;
`kdf.Read(dst)` is a single read on the `hkdf.Expand` reader with the same
up-front capacity check, its error likewise discarded. -/
def Fixed.HKDFExpand (P : Prim) (h : Fixed) (pseudorandomKey info : List Nat)
    (length : Nat) : List Nat :=
  let n := if length = 0 then Hash.Size h.id else length
  if n ≤ 255 * Hash.Size h.id then
    (List.range n).map (P.okmExpand h.id pseudorandomKey info)
  else
    List.replicate n 0

/-- part_002 `ExtendableHash.Size`: `h.id.Size()`. -/
def ExtendableHash.Size (h : ExtendableHash) : Nat := Hash.Size h.id

/-- part_002 `ExtendableHash.Write`: absorbs more input into the XOF state;
returns `(len(input), nil)`. (The underlying sponge forbids writing after a
read; the package's own call sites only write before reading.) -/
def ExtendableHash.Write (h : ExtendableHash) (input : List Nat) :
    Nat × ExtendableHash :=
  (input.length, { h with absorbed := h.absorbed ++ input })

/-- part_002 `ExtendableHash.Read`: panics with `errSmallOutputSize` when
`size < h.Size()`; otherwise allocates `size` bytes, fills them from the
output stream, and advances the stream position (a destructive read). -/
def ExtendableHash.Read (P : Prim) (h : ExtendableHash) (size : Nat) :
    Except GoPanic (List Nat × ExtendableHash) :=
  if size < h.Size then .error .smallOutputSize
  else .ok ((List.range size).map (fun i => P.xofStream h.id h.absorbed (h.pos + i)),
    { h with pos := h.pos + size })

/-- part_002 `ExtendableHash.Reset`: back to the initial state, discarding
absorbed input and stream position. -/
def ExtendableHash.Reset (h : ExtendableHash) : ExtendableHash :=
  { h with absorbed := [], pos := 0 }

/-- part_002 `ExtendableHash.Hash`: resets, writes every input chunk in
order, and reads `size` bytes (which panics when `size` is below the
standard output size). -/
def ExtendableHash.Hash (P : Prim) (h : ExtendableHash) (size : Nat)
    (input : List (List Nat)) : Except GoPanic (List Nat × ExtendableHash) :=
  ExtendableHash.Read P
    (input.foldl (fun s i => (ExtendableHash.Write s i).2) (ExtendableHash.Reset h))
    size

/-- part_002 `ExtendableHash.Sum`: allocates `Size + len(pfx)` bytes, copies
`pfx`, and fills the rest from the stream (destructive, like `Read`). -/
def ExtendableHash.Sum (P : Prim) (h : ExtendableHash) (pfx : List Nat) :
    List Nat × ExtendableHash :=
  (pfx ++ (List.range (Hash.Size h.id)).map (fun i => P.xofStream h.id h.absorbed (h.pos + i)),
    { h with pos := h.pos + Hash.Size h.id })

/-- hash.go `Hash.New`: `hashes[h]()`. For `h ≥ maxID` the array index is
out of range (runtime panic); for an in-range identifier that was never
registered the entry is the nil zero value of a Go func type, and calling it
is a nil-dereference runtime panic. Registered entries hold the closures
built by `newFixed`/`newXOF`, which capture the identifier. -/
def Hash.New (h : Nat) : Except GoPanic Hasher :=
  if h < maxID then
    match initRegistry.ctors h with
    | some .fixedCtor => .ok (.fixedH { id := h, data := [] })
    | some .xofCtor => .ok (.xofH { id := h, absorbed := [], pos := 0 })
    | none => .error .nilFunctionCall
  else .error .indexOutOfRange

/-- hash.go `Hasher.Hash` interface method, dispatched over the variant
(`Fixed.Hash` never panics; `ExtendableHash.Hash` may). -/
def Hasher.HashH (P : Prim) : Hasher → Nat → List (List Nat) →
    Except GoPanic (List Nat × Hasher)
  | .fixedH f, size, input =>
      .ok ((Fixed.Hash P f size input).1, .fixedH (Fixed.Hash P f size input).2)
  | .xofH x, size, input =>
      (ExtendableHash.Hash P x size input).map (fun r => (r.1, .xofH r.2))

/-- hash.go `Hash.Hash` (the one-shot convenience):
`h.New().Hash(uint(h.Size()), input...)`, keeping only the output bytes. -/
def Hash.HashOneShot (P : Prim) (h : Nat) (input : List (List Nat)) :
    Except GoPanic (List Nat) :=
  (Hash.New h).bind (fun hh => (Hasher.HashH P hh (Hash.Size h) input).map Prod.fst)

/-- hash.go `Hasher` interface `Write`, dispatched over the variant and
keeping the updated hasher. -/
def Hasher.WriteH : Hasher → List Nat → Hasher
  | .fixedH f, input => .fixedH (Fixed.Write f input).2
  | .xofH x, input => .xofH (ExtendableHash.Write x input).2

/-- hash.go `Hasher` interface `Read`, dispatched over the variant and
keeping only the bytes. -/
def Hasher.ReadH (P : Prim) : Hasher → Nat → Except GoPanic (List Nat)
  | .fixedH f, size => .ok (Fixed.Read P f size).1
  | .xofH x, size => (ExtendableHash.Read P x size).map Prod.fst

/-- Modelled from the spec (the refinement side of the one-shot claim):
"constructing a hasher, writing all input chunks in order, and finalizing
with the algorithm's standard output size". -/
def specOneShot (P : Prim) (h : Nat) (input : List (List Nat)) :
    Except GoPanic (List Nat) :=
  (Hash.New h).bind (fun h0 => Hasher.ReadH P (input.foldl Hasher.WriteH h0) (Hash.Size h))

/-- Injection of `Except` into `Sum`, to derive decidable equality. -/
def Except.toSum {e a : Type} : Except e a → e ⊕ a
  | .error x => .inl x
  | .ok x => .inr x

instance {e a : Type} [DecidableEq e] [DecidableEq a] : DecidableEq (Except e a) :=
  fun x y => decidable_of_iff (Except.toSum x = Except.toSum y)
    (by cases x <;> cases y <;> simp [Except.toSum])

/-- A concrete instance of the external-library parameter, used to evaluate
the development on closed inputs: digests and tags are zero bytes of the
contractual length, streams enumerate byte positions. -/
def trivialPrim : Prim where
  digest := fun i _ => List.replicate (Hash.Size i) 0
  hmacF := fun i _ _ => List.replicate (Hash.Size i) 0
  okm := fun _ _ _ _ p => p % 256
  okmExpand := fun _ _ _ p => p % 256
  prk := fun i _ _ => List.replicate (Hash.Size i) 0
  xofStream := fun _ _ p => p % 256
  digest_len := fun _ _ => List.length_replicate _ _
  hmacF_len := fun _ _ _ => List.length_replicate _ _

/-! ## Helper lemmas -/

/-- Availability implies the identifier is below the maximum. -/
theorem Available_lt {h : Nat} (hA : Hash.Available h = true) : h < maxID := by
  have h2 := hA
  rw [Hash.Available, Bool.and_eq_true] at h2
  exact of_decide_eq_true h2.1

/-- Folding `Fixed.Write` over chunks appends their concatenation to the
accumulated data and keeps the identifier. -/
theorem fixed_fold_write (input : List (List Nat)) (f : Fixed) :
    input.foldl (fun s i => (Fixed.Write s i).2) f =
      { id := f.id, data := input.foldl (fun a i => a ++ i) f.data } := by
  induction input generalizing f with
  | nil => rfl
  | cons x xs ih =>
    rw [List.foldl_cons, List.foldl_cons, ih]
    rfl

/-- Folding the interface-level `Write` over a `Fixed` hasher is the fold of
the variant's own `Write`. -/
theorem foldWriteH_fixed (input : List (List Nat)) (f : Fixed) :
    input.foldl Hasher.WriteH (.fixedH f) =
      .fixedH (input.foldl (fun s i => (Fixed.Write s i).2) f) := by
  induction input generalizing f with
  | nil => rfl
  | cons x xs ih => simp [List.foldl, Hasher.WriteH, ih]

/-- Folding the interface-level `Write` over an `ExtendableHash` hasher is
the fold of the variant's own `Write`. -/
theorem foldWriteH_xof (input : List (List Nat)) (x : ExtendableHash) :
    input.foldl Hasher.WriteH (.xofH x) =
      .xofH (input.foldl (fun s i => (ExtendableHash.Write s i).2) x) := by
  induction input generalizing x with
  | nil => rfl
  | cons y ys ih => simp [List.foldl, Hasher.WriteH, ih]

/-- Re-tagging the hasher component and then projecting the bytes is just
projecting the bytes. -/
theorem except_map_fst (e : Except GoPanic (List Nat × ExtendableHash)) :
    (e.map (fun r => (r.1, Hasher.xofH r.2))).map Prod.fst = e.map Prod.fst := by
  cases e <;> rfl

/-- One-shot/spec agreement for an identifier whose constructor is
`newFixed`. -/
theorem oneShot_spec_fixed (P : Prim) (c : Nat) (input : List (List Nat))
    (hc : Hash.New c = .ok (.fixedH { id := c, data := [] })) :
    Hash.HashOneShot P c input = specOneShot P c input := by
  simp [Hash.HashOneShot, specOneShot, hc, Except.bind, Except.map, Hasher.HashH,
    Hasher.ReadH, foldWriteH_fixed, Fixed.Hash, Fixed.Read, Fixed.Reset]

/-- One-shot/spec agreement for an identifier whose constructor is
`newXOF`. -/
theorem oneShot_spec_xof (P : Prim) (c : Nat) (input : List (List Nat))
    (hc : Hash.New c = .ok (.xofH { id := c, absorbed := [], pos := 0 })) :
    Hash.HashOneShot P c input = specOneShot P c input := by
  simp [Hash.HashOneShot, specOneShot, hc, Except.bind, Hasher.HashH,
    Hasher.ReadH, foldWriteH_xof, ExtendableHash.Hash, ExtendableHash.Reset,
    except_map_fst]

/-- The HKDF output buffer always has the effective requested length. -/
theorem hkdf_length (P : Prim) (h : Fixed) (secret salt info : List Nat)
    (L : Nat) : (Fixed.HKDF P h secret salt info L).length =
      (if L = 0 then Hash.Size h.id else L) := by
  simp only [Fixed.HKDF]
  split <;> split <;> simp

/-- The HKDF-Expand output buffer always has the effective requested
length. -/
theorem hkdfExpand_length (P : Prim) (h : Fixed) (prk2 info : List Nat)
    (L : Nat) : (Fixed.HKDFExpand P h prk2 info L).length =
      (if L = 0 then Hash.Size h.id else L) := by
  simp only [Fixed.HKDFExpand]
  split <;> split <;> simp

/-- In-bounds `getD` on a zero-filled buffer is zero. -/
theorem getD_replicate_zero (n i : Nat) (hi : i < n) :
    (List.replicate n (0 : Nat)).getD i 1 = 0 := by
  induction n generalizing i with
  | zero => omega
  | succ k ih =>
    cases i with
    | zero => rfl
    | succ j => simpa [List.replicate] using ih j (by omega)

/-! ## Claim theorems -/

/-- Claim C1: for every extendable-output hasher, `Read(size)` with `size`
strictly below the algorithm's standard output size panics immediately with
`errSmallOutputSize` (never a silent truncation), and for every `size` at or
above the standard output size it returns exactly `size` bytes. -/
theorem xof_read_min_size (P : Prim) (x : ExtendableHash) (size : Nat) :
    (size < Hash.Size x.id →
      ExtendableHash.Read P x size = .error .smallOutputSize) ∧
    (Hash.Size x.id ≤ size →
      ∃ out x2, ExtendableHash.Read P x size = .ok (out, x2) ∧
        out.length = size) := by
  constructor
  · intro hlt
    simp [ExtendableHash.Read, ExtendableHash.Size, hlt]
  · intro hge
    have hnot : ¬ size < ExtendableHash.Size x := by
      simp [ExtendableHash.Size]
      omega
    refine ⟨(List.range size).map (fun i => P.xofStream x.id x.absorbed (x.pos + i)),
      { x with pos := x.pos + size }, ?_, by simp⟩
    simp [ExtendableHash.Read, hnot]

/-- Witness for C1: SHAKE128's standard output size is 32; `Read 1` panics
and `Read 40` returns 40 bytes. -/
theorem xof_read_min_size_witness :
    ((1 : Nat) < Hash.Size (⟨SHAKE128, [], 0⟩ : ExtendableHash).id ∧
      ExtendableHash.Read trivialPrim ⟨SHAKE128, [], 0⟩ 1 = .error .smallOutputSize) ∧
    (Hash.Size (⟨SHAKE128, [], 0⟩ : ExtendableHash).id ≤ 40 ∧
      ∃ out x2, ExtendableHash.Read trivialPrim ⟨SHAKE128, [], 0⟩ 40 = .ok (out, x2) ∧
        out.length = 40) :=
  ⟨⟨by decide, (xof_read_min_size trivialPrim ⟨SHAKE128, [], 0⟩ 1).1 (by decide)⟩,
   ⟨by decide, (xof_read_min_size trivialPrim ⟨SHAKE128, [], 0⟩ 40).2 (by decide)⟩⟩

/-- Counterexample to C2 as stated: `new()` on an unavailable identifier
does raise a panic rather than returning a zero hasher. Identifier 1
(`crypto.MD4`) is in range but unregistered, so `hashes[1]` is a nil
function value and calling it is a nil-dereference panic; identifier 30 is
at or beyond `maxID`, so `hashes[30]` is an out-of-range array index. -/
theorem new_unavailable_panics_cex :
    Hash.Available 1 = false ∧ Hash.New 1 = .error .nilFunctionCall ∧
    Hash.Available 30 = false ∧ Hash.New 30 = .error .indexOutOfRange :=
  ⟨by decide, by decide, by decide, by decide⟩

/-- Amended C2: calling `new()` on an unavailable identifier panics — a
nil-function-call panic for an in-range unregistered identifier, an
index-out-of-range panic for an identifier at or beyond the maximum; it
never returns a hasher. -/
theorem new_unavailable_panics (h : Nat) (hA : Hash.Available h = false) :
    Hash.New h = .error
      (if h < maxID then GoPanic.nilFunctionCall else GoPanic.indexOutOfRange) := by
  by_cases h25 : h < maxID
  · rw [if_pos h25]
    exact (by decide :
      ∀ x, x < 25 → Hash.Available x = false →
        Hash.New x = .error .nilFunctionCall) h h25 hA
  · rw [if_neg h25]
    simp [Hash.New, h25]

/-- Witness for the amended C2 at identifier 1. -/
theorem new_unavailable_panics_witness :
    Hash.Available 1 = false ∧
    Hash.New 1 = .error
      (if 1 < maxID then GoPanic.nilFunctionCall else GoPanic.indexOutOfRange) :=
  ⟨by decide, new_unavailable_panics 1 (by decide)⟩

/-- Claim C3: for every `Fixed` hasher, `Hmac(message, key)` succeeds with a
digest-size MAC whenever the key is at most the digest size, and panics with
`errHmacKeySize` whenever the key exceeds the digest size. -/
theorem hmac_key_boundary (P : Prim) (h : Fixed) (message key : List Nat) :
    (key.length ≤ Hash.Size h.id →
      Fixed.Hmac P h message key = .ok (P.hmacF h.id key message) ∧
        (P.hmacF h.id key message).length = Hash.Size h.id) ∧
    (Hash.Size h.id < key.length →
      Fixed.Hmac P h message key = .error .hmacKeySize) := by
  constructor
  · intro hle
    exact ⟨by simp [Fixed.Hmac, Nat.not_lt.mpr hle], P.hmacF_len h.id key message⟩
  · intro hgt
    simp [Fixed.Hmac, hgt]

/-- Witness for C3 at SHA-256 (digest size 32): a 32-byte key succeeds, a
33-byte key panics. -/
theorem hmac_key_boundary_witness :
    ((List.replicate 32 0).length ≤ Hash.Size (⟨SHA256, []⟩ : Fixed).id ∧
      (Fixed.Hmac trivialPrim ⟨SHA256, []⟩ [1] (List.replicate 32 0) =
          .ok (trivialPrim.hmacF (⟨SHA256, []⟩ : Fixed).id (List.replicate 32 0) [1]) ∧
        (trivialPrim.hmacF (⟨SHA256, []⟩ : Fixed).id (List.replicate 32 0) [1]).length =
          Hash.Size (⟨SHA256, []⟩ : Fixed).id)) ∧
    (Hash.Size (⟨SHA256, []⟩ : Fixed).id < (List.replicate 33 0).length ∧
      Fixed.Hmac trivialPrim ⟨SHA256, []⟩ [1] (List.replicate 33 0) =
        .error .hmacKeySize) :=
  ⟨⟨by decide, (hmac_key_boundary trivialPrim ⟨SHA256, []⟩ [1]
      (List.replicate 32 0)).1 (by decide)⟩,
   ⟨by decide, (hmac_key_boundary trivialPrim ⟨SHA256, []⟩ [1]
      (List.replicate 33 0)).2 (by decide)⟩⟩

/-- Claim C4: for a `Fixed` hasher, `Sum` and `Read` are pure projections of
the accumulated state — they return the hasher unchanged, two consecutive
`Read` (or `Sum`) calls without an intervening `Write` return identical
bytes, and writing after reading is the same as writing without the read. -/
theorem fixed_read_nondestructive (P : Prim) (h : Fixed) (pfx input : List Nat)
    (n m : Nat) :
    (Fixed.Sum P h pfx).2 = h ∧
    (Fixed.Read P h n).2 = h ∧
    (Fixed.Read P ((Fixed.Read P h n).2) m).1 = (Fixed.Read P h n).1 ∧
    (Fixed.Sum P ((Fixed.Sum P h pfx).2) pfx).1 = (Fixed.Sum P h pfx).1 ∧
    Fixed.Write ((Fixed.Read P h n).2) input = Fixed.Write h input :=
  ⟨rfl, rfl, rfl, rfl, rfl⟩

/-- Claim C5: for every registered identifier, the hasher obtained from it
reports the same identifier: `id.New().Algorithm() == id`, covering both the
`Fixed` and the `ExtendableHash` variant. -/
theorem identity_roundtrip (h : Nat) (hA : Hash.Available h = true) :
    (Hash.New h).map Hasher.Algorithm = Except.ok h := by
  have h25 : h < 25 := Available_lt hA
  exact (by decide :
    ∀ x, x < 25 → Hash.Available x = true →
      (Hash.New x).map Hasher.Algorithm = Except.ok x) h h25 hA

/-- Witness for C5 at SHA-512. -/
theorem identity_roundtrip_witness :
    Hash.Available 7 = true ∧ (Hash.New 7).map Hasher.Algorithm = Except.ok 7 :=
  ⟨by decide, identity_roundtrip 7 (by decide)⟩

/-- Claim C6: `Available(id)` holds exactly when `id` is below the declared
maximum and registered (and the `init` sequence registers exactly the ten
identifiers 5, 6, 7, 11, 12, 13, 21, 22, 23, 24); every unregistered or
out-of-range identifier reports `Available() == false` and an empty
`Type()`. -/
theorem available_iff_registered (h : Nat) :
    (Hash.Available h = true ↔ (h < maxID ∧ initRegistry.registered h = true)) ∧
    (initRegistry.registered h = true ↔
      (h = 5 ∨ h = 6 ∨ h = 7 ∨ h = 11 ∨ h = 12 ∨ h = 13 ∨
        h = 21 ∨ h = 22 ∨ h = 23 ∨ h = 24)) ∧
    ((initRegistry.registered h = false ∨ maxID ≤ h) →
      Hash.Available h = false ∧ Hash.TypeOf h = "") := by
  refine ⟨?_, ?_, ?_⟩
  · simp [Hash.Available, Bool.and_eq_true, decide_eq_true_eq]
  · simp only [initRegistry, Registry.register, Registry.empty, SHA256, SHA384,
      SHA512, SHA3_256, SHA3_384, SHA3_512, SHAKE128, SHAKE256, BLAKE2XB,
      BLAKE2XS, maxFixed]
    norm_num
    tauto
  · intro hc
    have hA : Hash.Available h = false := by
      rcases hc with hr | hge
      · simp [Hash.Available, hr]
      · simp [Hash.Available, Nat.not_lt.mpr hge]
    refine ⟨hA, ?_⟩
    simp [Hash.TypeOf, hA]

/-- Witness for C6 at identifier 20 (`maxFixed`, in range but never
registered). -/
theorem available_iff_registered_witness :
    (initRegistry.registered 20 = false ∨ maxID ≤ 20) ∧
    Hash.Available 20 = false ∧ Hash.TypeOf 20 = "" :=
  ⟨Or.inl (by decide), (available_iff_registered 20).2.2 (Or.inl (by decide))⟩

/-- Claim C7: for every registered identifier and input chunks, the one-shot
`id.Hash(inputs...)` equals constructing a fresh hasher, writing all chunks
in order, and finalizing (reading) with the algorithm's standard output
size; and it is deterministic — the whole embedding is a pure function of
its inputs, so two evaluations on the same inputs are the same bytes. -/
theorem oneshot_equiv_spec (P : Prim) (h : Nat) (input : List (List Nat))
    (hA : Hash.Available h = true) :
    Hash.HashOneShot P h input = specOneShot P h input ∧
      Hash.HashOneShot P h input = Hash.HashOneShot P h input := by
  refine ⟨?_, rfl⟩
  have h25 : h < 25 := Available_lt hA
  interval_cases h
  all_goals first
    | exact absurd hA (by decide)
    | exact oneShot_spec_fixed P _ input rfl
    | exact oneShot_spec_xof P _ input rfl

/-- Witness for C7 at SHA-256 (fixed) and SHAKE128 (extendable). -/
theorem oneshot_equiv_spec_witness :
    (Hash.Available 5 = true ∧
      Hash.HashOneShot trivialPrim 5 [[1], [2]] = specOneShot trivialPrim 5 [[1], [2]]) ∧
    (Hash.Available 21 = true ∧
      Hash.HashOneShot trivialPrim 21 [[1], [2]] = specOneShot trivialPrim 21 [[1], [2]]) :=
  ⟨⟨by decide, (oneshot_equiv_spec trivialPrim 5 [[1], [2]] (by decide)).1⟩,
   ⟨by decide, (oneshot_equiv_spec trivialPrim 21 [[1], [2]] (by decide)).1⟩⟩

/-- Claim C8: `Fixed.Hash(sizeHint, inputs...)` ignores the size hint,
resets the state and writes all inputs in order (the final state holds
exactly the concatenated inputs), and always returns the full standard-size
digest. -/
theorem fixed_hash_standard_size (P : Prim) (h : Fixed) (s1 s2 : Nat)
    (input : List (List Nat)) :
    Fixed.Hash P h s1 input = Fixed.Hash P h s2 input ∧
    (Fixed.Hash P h s1 input).1.length = Hash.Size h.id ∧
    (Fixed.Hash P h s1 input).2 =
      { id := h.id, data := input.foldl (fun a i => a ++ i) [] } := by
  refine ⟨rfl, ?_, ?_⟩
  · simp [Fixed.Hash, Fixed.Sum, Fixed.Reset, fixed_fold_write, P.digest_len]
  · simp [Fixed.Hash, Fixed.Sum, Fixed.Reset, fixed_fold_write]

/-- Claim C9: `HKDF(secret, salt, info, 0)` produces exactly `id.size()`
bytes (a zero length means "use the standard digest size"), every positive
length produces exactly that many bytes, and `HKDFExpand` follows the same
convention. -/
theorem hkdf_zero_length_convention (P : Prim) (h : Fixed)
    (secret salt info prk2 : List Nat) (L : Nat) :
    (Fixed.HKDF P h secret salt info 0).length = Hash.Size h.id ∧
    (L ≠ 0 → (Fixed.HKDF P h secret salt info L).length = L) ∧
    (Fixed.HKDFExpand P h prk2 info 0).length = Hash.Size h.id ∧
    (L ≠ 0 → (Fixed.HKDFExpand P h prk2 info L).length = L) := by
  refine ⟨?_, fun hL => ?_, ?_, fun hL => ?_⟩
  · simp [hkdf_length]
  · simp [hkdf_length, hL]
  · simp [hkdfExpand_length]
  · simp [hkdfExpand_length, hL]

/-- Witness for C9 at SHA-256 with requested length 7. -/
theorem hkdf_zero_length_convention_witness :
    (Fixed.HKDF trivialPrim ⟨SHA256, []⟩ [1] [2] [3] 0).length =
      Hash.Size (⟨SHA256, []⟩ : Fixed).id ∧
    ((7 : Nat) ≠ 0 ∧ (Fixed.HKDF trivialPrim ⟨SHA256, []⟩ [1] [2] [3] 7).length = 7) ∧
    (Fixed.HKDFExpand trivialPrim ⟨SHA256, []⟩ [4] [3] 0).length =
      Hash.Size (⟨SHA256, []⟩ : Fixed).id ∧
    ((7 : Nat) ≠ 0 ∧ (Fixed.HKDFExpand trivialPrim ⟨SHA256, []⟩ [4] [3] 7).length = 7) :=
  ⟨(hkdf_zero_length_convention trivialPrim ⟨SHA256, []⟩ [1] [2] [3] [4] 7).1,
   ⟨by decide, (hkdf_zero_length_convention trivialPrim ⟨SHA256, []⟩ [1] [2] [3] [4] 7).2.1
      (by decide)⟩,
   (hkdf_zero_length_convention trivialPrim ⟨SHA256, []⟩ [1] [2] [3] [4] 7).2.2.1,
   ⟨by decide, (hkdf_zero_length_convention trivialPrim ⟨SHA256, []⟩ [1] [2] [3] [4] 7).2.2.2
      (by decide)⟩⟩

/-- Claim C10: `HKDF` and `HKDFExpand` never report failure for any
requested length — the returned slice always has exactly the requested
length, and when the request exceeds the expansion limit of `255 *
digestSize` the underlying reader's error is discarded, leaving every byte
at or past the limit zero. -/
theorem hkdf_over_limit_zero_fill (P : Prim) (h : Fixed)
    (secret salt info prk2 : List Nat) (L i : Nat) :
    (L ≠ 0 → (Fixed.HKDF P h secret salt info L).length = L ∧
      (Fixed.HKDFExpand P h prk2 info L).length = L) ∧
    (255 * Hash.Size h.id ≤ i → i < L →
      (Fixed.HKDF P h secret salt info L).getD i 1 = 0 ∧
      (Fixed.HKDFExpand P h prk2 info L).getD i 1 = 0) := by
  constructor
  · intro hL
    simp [hkdf_length, hkdfExpand_length, hL]
  · intro hi hiL
    by_cases hle : L ≤ 255 * Hash.Size h.id
    · omega
    · have hL0 : L ≠ 0 := by omega
      constructor
      · simp only [Fixed.HKDF, if_neg hL0, if_neg hle]
        exact getD_replicate_zero L i hiL
      · simp only [Fixed.HKDFExpand, if_neg hL0, if_neg hle]
        exact getD_replicate_zero L i hiL

/-- Witness for C10 at SHA-256: a request of `255 * 32 + 1 = 8161` bytes is
over the limit; byte 8160 of the result is zero and the length is still
8161. -/
theorem hkdf_over_limit_zero_fill_witness :
    ((8161 : Nat) ≠ 0 ∧
      (Fixed.HKDF trivialPrim ⟨SHA256, []⟩ [1] [2] [3] 8161).length = 8161 ∧
      (Fixed.HKDFExpand trivialPrim ⟨SHA256, []⟩ [4] [3] 8161).length = 8161) ∧
    (255 * Hash.Size (⟨SHA256, []⟩ : Fixed).id ≤ 8160 ∧ (8160 : Nat) < 8161 ∧
      (Fixed.HKDF trivialPrim ⟨SHA256, []⟩ [1] [2] [3] 8161).getD 8160 1 = 0 ∧
      (Fixed.HKDFExpand trivialPrim ⟨SHA256, []⟩ [4] [3] 8161).getD 8160 1 = 0) :=
  ⟨⟨by decide, (hkdf_over_limit_zero_fill trivialPrim ⟨SHA256, []⟩ [1] [2] [3] [4]
      8161 8160).1 (by decide)⟩,
   ⟨by decide, by decide, (hkdf_over_limit_zero_fill trivialPrim ⟨SHA256, []⟩ [1] [2] [3] [4]
      8161 8160).2 (by decide) (by decide)⟩⟩

end HashSpec
